import Mathlib

/-!
Shallow embedding of the awx-job-exporter poll pipeline (src/main.go).

The Go program runs a single loop: fetch job records from the AWX REST API,
optionally filter them through a whitelist, aggregate counts by
(organization, status, combined-label string), and publish the counts into a
process-wide gauge collection.  The embedding below translates each function
of src/main.go into an executable Lean definition:

* `AWXJob` / `AWXResponse`   — the decode target structs (main.go lines 34-48);
* `Json` and the decoders    — Go `encoding/json` behaviour for those structs,
  specialised to the struct tags of `AWXJob` (`id`, `status`, `elapsed`,
  `summary_fields.organization`, `summary_fields.labels`; a dot inside a tag is
  a literal character of the key, not a path separator);
* `fetchAWXJobData`          — lines 77-101: the HTTP exchange is abstracted to
  an `Except` transport result carrying a status code and a body; the body is
  `Option Json` where `none` stands for a body that is not syntactically valid
  JSON.  The Go code never reads `resp.StatusCode`, and the embedding mirrors
  that;
* `contains`, `isWhitelisted` — lines 103-126, with the package-level whitelist
  variables turned into explicit parameters;
* `processJob` / `aggregateJobs` — the aggregation loop of `recordAWXMetrics`
  (lines 141-171).  Go's three-level map `org → status → labels → int` is
  flattened to `AggregateKey → Option Nat`: `none` models an absent key, and
  the intermediate empty maps created at lines 163-168 hold no counts and are
  invisible to the publish loop, so the flattening preserves every lookup the
  program performs;
* `publish`                  — the gauge-update loop (lines 173-180); gauge
  values are only ever `Set` to `float64(count)` for a `Nat` count, which
  float64 represents exactly, so gauge values are modelled as `Nat`;
* `runCycle`                 — one iteration of the `for` loop in
  `recordAWXMetrics` (lines 130-183): the returned `Nat` is the number of
  seconds slept at the end of the iteration.  On a fetch error the code hits
  `continue` (line 138) before `time.Sleep(10 * time.Second)` (line 182), so
  that branch sleeps 0 seconds; the success branch sleeps 10.

Duplicate object keys are not modelled (`Json.getField` returns the first
occurrence); the upstream documents quantified over below have no duplicate
keys.  `elapsed` is decoded into `Rat` rather than `float32`; it is unused by
the pipeline.
-/

namespace AWX

/-- A JSON object carrying a single `name` field, the shape of the nested
`summary_fields.organization` object and of each element of
`summary_fields.labels` (main.go lines 36-41). -/
structure NamedRef where
  Name : String
deriving DecidableEq, Repr

/-- The decode target for one job record (main.go lines 34-44). -/
structure AWXJob where
  Status : String
  Labels : List NamedRef
  Organization : NamedRef
  JobId : Int
  Elapsed : Rat
deriving DecidableEq, Repr

/-- The decode target for the whole response (main.go lines 46-48). -/
structure AWXResponse where
  Results : List AWXJob
deriving DecidableEq, Repr

/-- JSON values; numbers are carried exactly as rationals. -/
inductive Json where
  | null : Json
  | bool (b : Bool) : Json
  | num (q : Rat) : Json
  | str (s : String) : Json
  | arr (elems : List Json) : Json
  | obj (fields : List (String × Json)) : Json

/-- Field lookup in a JSON object (first occurrence of the key). -/
def Json.getField (fields : List (String × Json)) (key : String) : Option Json :=
  match fields with
  | [] => none
  | (k, v) :: rest => if k = key then some v else Json.getField rest key

/-- Go `encoding/json` decoding of a string struct field: a missing key or a
JSON null leaves the zero value `""`; a JSON string is taken verbatim; any
other value is a type error. -/
def decodeStringField (fields : List (String × Json)) (key : String) : Except String String :=
  match Json.getField fields key with
  | none => .ok ""
  | some .null => .ok ""
  | some (.str s) => .ok s
  | some _ => .error ("json: cannot unmarshal value into string field " ++ key)

/-- Go `encoding/json` decoding of an `int` struct field: missing or null gives
the zero value 0; a JSON number must be an integer. -/
def decodeIntField (fields : List (String × Json)) (key : String) : Except String Int :=
  match Json.getField fields key with
  | none => .ok 0
  | some .null => .ok 0
  | some (.num q) => if q.den = 1 then .ok q.num else .error ("json: cannot unmarshal number into int field " ++ key)
  | some _ => .error ("json: cannot unmarshal value into int field " ++ key)

/-- Go `encoding/json` decoding of the numeric `elapsed` field, kept exact. -/
def decodeRatField (fields : List (String × Json)) (key : String) : Except String Rat :=
  match Json.getField fields key with
  | none => .ok 0
  | some .null => .ok 0
  | some (.num q) => .ok q
  | some _ => .error ("json: cannot unmarshal value into number field " ++ key)

/-- Decode one `{ "name": ... }` object; null leaves the zero struct. -/
def decodeNamedRef (j : Json) : Except String NamedRef :=
  match j with
  | .null => .ok ⟨""⟩
  | .obj fields =>
    match decodeStringField fields "name" with
    | .ok n => .ok ⟨n⟩
    | .error e => .error e
  | _ => .error "json: cannot unmarshal value into struct with field name"

/-- Decode a slice of `{ "name": ... }` objects element by element, as Go
decodes `[]struct{ Name string }`. -/
def decodeNamedRefList : List Json → Except String (List NamedRef)
  | [] => .ok []
  | j :: rest =>
    match decodeNamedRef j, decodeNamedRefList rest with
    | .ok r, .ok rs => .ok (r :: rs)
    | .error e, _ => .error e
    | _, .error e => .error e

/-- The `summary_fields.labels` field: missing or null leaves a nil slice. -/
def decodeLabelsField (fields : List (String × Json)) : Except String (List NamedRef) :=
  match Json.getField fields "summary_fields.labels" with
  | none => .ok []
  | some .null => .ok []
  | some (.arr elems) => decodeNamedRefList elems
  | some _ => .error "json: cannot unmarshal value into slice field summary_fields.labels"

/-- The `summary_fields.organization` field: missing leaves the zero struct. -/
def decodeOrgField (fields : List (String × Json)) : Except String NamedRef :=
  match Json.getField fields "summary_fields.organization" with
  | none => .ok ⟨""⟩
  | some v => decodeNamedRef v

/-- Decode one job object into `AWXJob` (struct tags of main.go lines 34-44).
Go reports the first failing field in document order; the embedding fixes a
field order, which changes only which error message is produced, never whether
decoding succeeds. -/
def decodeAWXJob (j : Json) : Except String AWXJob :=
  match j with
  | .null => .ok { Status := "", Labels := [], Organization := ⟨""⟩, JobId := 0, Elapsed := 0 }
  | .obj fields =>
    match decodeStringField fields "status" with
    | .error e => .error e
    | .ok st =>
      match decodeLabelsField fields with
      | .error e => .error e
      | .ok ls =>
        match decodeOrgField fields with
        | .error e => .error e
        | .ok org =>
          match decodeIntField fields "id" with
          | .error e => .error e
          | .ok id =>
            match decodeRatField fields "elapsed" with
            | .error e => .error e
            | .ok el => .ok { Status := st, Labels := ls, Organization := org, JobId := id, Elapsed := el }
  | _ => .error "json: cannot unmarshal value into AWXJob"

/-- Decode the `results` array element by element. -/
def decodeAWXJobList : List Json → Except String (List AWXJob)
  | [] => .ok []
  | j :: rest =>
    match decodeAWXJob j, decodeAWXJobList rest with
    | .ok r, .ok rs => .ok (r :: rs)
    | .error e, _ => .error e
    | _, .error e => .error e

/-- Decode the top-level document into `AWXResponse` (main.go lines 46-48,
95-98): unknown fields are ignored, a missing or null `results` leaves a nil
slice. -/
def decodeAWXResponse (j : Json) : Except String AWXResponse :=
  match j with
  | .null => .ok ⟨[]⟩
  | .obj fields =>
    match Json.getField fields "results" with
    | none => .ok ⟨[]⟩
    | some .null => .ok ⟨[]⟩
    | some (.arr elems) =>
      match decodeAWXJobList elems with
      | .ok rs => .ok ⟨rs⟩
      | .error e => .error e
    | some _ => .error "json: cannot unmarshal value into slice field results"
  | _ => .error "json: cannot unmarshal value into AWXResponse"

/-- The upstream HTTP response as the fetch sees it: a status code and a body;
`body = none` models a body that is not syntactically valid JSON. -/
structure HTTPResponse where
  statusCode : Nat
  body : Option Json

/-- Embedding of `fetchAWXJobData` (main.go lines 77-101): a transport failure is passed
through as an error; otherwise the body is decoded.  The source never inspects
`resp.StatusCode` — decoding proceeds for every status code alike. -/
def fetchAWXJobData (transport : Except String HTTPResponse) : Except String AWXResponse :=
  match transport with
  | .error e => .error e
  | .ok resp =>
    match resp.body with
    | none => .error "invalid JSON"
    | some j => decodeAWXResponse j

/-- Embedding of `contains` (main.go lines 119-126): linear scan for an exact string match. -/
def contains (slice : List String) (item : String) : Bool :=
  match slice with
  | [] => false
  | element :: rest => if element = item then true else contains rest item

/-- Embedding of `isWhitelisted` (main.go lines 103-117), with the package-level whitelist
slices as explicit parameters: the organization must be in the whitelist, and
the loop over the job's labels returns true on the first whitelisted label and
false if none is found. -/
def isWhitelisted (whitelistOrganizations whitelistLabels : List String)
    (organization : String) (jobLabels : List String) : Bool :=
  if !(contains whitelistOrganizations organization) then false
  else jobLabels.any (fun label => contains whitelistLabels label)

/-- The aggregation key: organization, status, and the job's labels joined with
"," in their upstream order (spec §3 AggregateKey; main.go lines 151, 170). -/
structure AggregateKey where
  organization : String
  status : String
  combinedLabels : String
deriving DecidableEq, Repr

/-- The per-cycle count map, Go's `map[string]map[string]map[string]int`
flattened to full-triple lookups; `none` is an absent key. -/
def AggregateMap : Type := AggregateKey → Option Nat

/-- The map every poll cycle starts from (main.go line 141: `make(...)`). -/
def emptyAggregate : AggregateMap := fun _ => none

/-- Go's `m[k]++` on a nested map: a missing key is created with count 1,
a present key is incremented (main.go lines 163-170). -/
def incr (m : AggregateMap) (k : AggregateKey) : AggregateMap :=
  fun k' => if k' = k then some ((m k).getD 0 + 1) else m k'

/-- The body of the `for _, job := range awxResponse.Results` loop (main.go
lines 143-171): build the label list, join it, skip the job when the whitelist
is enabled and rejects it, otherwise bump the count for its key. -/
def processJob (whitelistEnabled : Bool) (whitelistOrganizations whitelistLabels : List String)
    (m : AggregateMap) (job : AWXJob) : AggregateMap :=
  let orgName := job.Organization.Name
  let jobLabels := job.Labels.map NamedRef.Name
  let combinedLabels := String.intercalate "," jobLabels
  if whitelistEnabled && !(isWhitelisted whitelistOrganizations whitelistLabels orgName jobLabels) then
    m
  else
    incr m ⟨orgName, job.Status, combinedLabels⟩

/-- The whole aggregation pass of one cycle, starting from the empty map. -/
def aggregateJobs (whitelistEnabled : Bool) (whitelistOrganizations whitelistLabels : List String)
    (results : List AWXJob) : AggregateMap :=
  results.foldl (processJob whitelistEnabled whitelistOrganizations whitelistLabels) emptyAggregate

/-- The `AggregateKey` a job contributes to when it is counted. -/
def keyOf (job : AWXJob) : AggregateKey :=
  ⟨job.Organization.Name, job.Status, String.intercalate "," (job.Labels.map NamedRef.Name)⟩

/-- Whether a job survives the filter step of the loop: it is skipped exactly
when the whitelist is enabled and `isWhitelisted` rejects it (main.go
lines 153-159). -/
def jobAllowed (whitelistEnabled : Bool) (whitelistOrganizations whitelistLabels : List String)
    (job : AWXJob) : Bool :=
  !(whitelistEnabled && !(isWhitelisted whitelistOrganizations whitelistLabels
      job.Organization.Name (job.Labels.map NamedRef.Name)))

/-- The process-wide gauge collection keyed by (organization, status,
job_labels); `none` means the gauge vector has no child for that key yet. -/
def GaugeState : Type := AggregateKey → Option Nat

/-- The gauge state of a fresh process: no children exist. -/
def emptyGauge : GaugeState := fun _ => none

/-- The publish loop (main.go lines 173-180): every key present in the map has
its gauge `Set` to the count; no other gauge is touched. -/
def publish (m : AggregateMap) (g : GaugeState) : GaugeState :=
  fun k =>
    match m k with
    | some c => some c
    | none => g k

/-- One iteration of the `for` loop of `recordAWXMetrics` (main.go
lines 130-183), given the outcome of the fetch: the new gauge state and the
number of seconds slept at the end of the iteration.  On a fetch error the
`continue` at line 138 jumps back to the top of the loop before the
`time.Sleep(10 * time.Second)` at line 182, so nothing is aggregated or
published and no sleep happens; on success the aggregate is published and the
loop sleeps 10 seconds. -/
def runCycle (whitelistEnabled : Bool) (whitelistOrganizations whitelistLabels : List String)
    (fetched : Except String AWXResponse) (g : GaugeState) : GaugeState × Nat :=
  match fetched with
  | .error _ => (g, 0)
  | .ok resp =>
    (publish (aggregateJobs whitelistEnabled whitelistOrganizations whitelistLabels resp.Results) g, 10)

/-- A job record of the documented upstream shape (spec §4.1/§6): the nested
organization object's name and the nested label objects' names, together with
id, status and elapsed. -/
structure SpecJob where
  id : Int
  status : String
  elapsed : Rat
  orgName : String
  labelNames : List String

/-- Render a `SpecJob` as the documented JSON job object. -/
def SpecJob.toJson (s : SpecJob) : Json :=
  .obj [("id", .num (s.id : Rat)),
        ("status", .str s.status),
        ("elapsed", .num s.elapsed),
        ("summary_fields.organization", .obj [("name", .str s.orgName)]),
        ("summary_fields.labels", .arr (s.labelNames.map (fun n => .obj [("name", .str n)])))]

/-- The documented top-level document: `{ "results": [ ... ] }`. -/
def specDoc (jobs : List SpecJob) : Json :=
  .obj [("results", .arr (jobs.map SpecJob.toJson))]

/-- The record a documented-shape job should decode to: organization and labels
taken from the nested objects' `name` fields. -/
def specToRecord (s : SpecJob) : AWXJob :=
  { Status := s.status
    Labels := s.labelNames.map (fun n => ⟨n⟩)
    Organization := ⟨s.orgName⟩
    JobId := s.id
    Elapsed := s.elapsed }

/-- A job record built from an organization, a status and a label list, used to
state aggregation properties. -/
def mkJob (org status : String) (labels : List String) : AWXJob :=
  { Status := status
    Labels := labels.map (fun n => ⟨n⟩)
    Organization := ⟨org⟩
    JobId := 0
    Elapsed := 0 }

/-! Helper lemmas shared by the claim theorems. -/

theorem map_mk_name (labels : List String) :
    (labels.map (fun n => (⟨n⟩ : NamedRef))).map NamedRef.Name = labels := by
  induction labels with
  | nil => rfl
  | cons a t ih => simp [ih]

theorem map_mk_name_comp (labels : List String) :
    labels.map (NamedRef.Name ∘ fun n => (⟨n⟩ : NamedRef)) = labels := by
  rw [← List.map_map, map_mk_name]

theorem contains_iff (slice : List String) (item : String) :
    contains slice item = true ↔ item ∈ slice := by
  induction slice with
  | nil => simp [contains]
  | cons e rest ih =>
    by_cases h : e = item
    · simp [contains, h]
    · simp [contains, h, ih, Ne.symm h]

theorem isWhitelisted_eq (worgs wlabels : List String) (org : String) (jobLabels : List String) :
    isWhitelisted worgs wlabels org jobLabels =
      (contains worgs org && jobLabels.any (fun label => contains wlabels label)) := by
  unfold isWhitelisted
  cases h : contains worgs org <;> simp [h]

theorem keyOf_mkJob (org status : String) (labels : List String) :
    keyOf (mkJob org status labels) = ⟨org, status, String.intercalate "," labels⟩ := by
  show AggregateKey.mk org status
      (String.intercalate "," ((labels.map (fun n => (⟨n⟩ : NamedRef))).map NamedRef.Name)) = _
  rw [map_mk_name]

theorem processJob_eq (we : Bool) (worgs wlabels : List String) (m : AggregateMap) (job : AWXJob) :
    processJob we worgs wlabels m job =
      if jobAllowed we worgs wlabels job = true then incr m (keyOf job) else m := by
  unfold processJob jobAllowed keyOf
  cases we <;>
    cases h : isWhitelisted worgs wlabels job.Organization.Name (job.Labels.map NamedRef.Name) <;>
      simp [h]

theorem processJob_disabled (worgs wlabels : List String) (m : AggregateMap) (job : AWXJob) :
    processJob false worgs wlabels m job = incr m (keyOf job) := by
  simp [processJob_eq, jobAllowed]

/-! Theorems settling the claims. -/

/-- C1: the claim states that a failed fetch is followed by the same 10-second
sleep as a successful cycle.  The code diverges: on a fetch error the
`continue` at main.go line 138 jumps back to the loop head before the
`time.Sleep(10 * time.Second)` at line 182 is reached, so an errored cycle
sleeps 0 seconds while a successful cycle sleeps 10 — the retry is immediate. -/
theorem failed_cycle_sleeps_zero :
    (runCycle false [] [] (Except.error "connection refused") emptyGauge).2 = 0
    ∧ (runCycle false [] [] (Except.ok ⟨[]⟩) emptyGauge).2 = 10 :=
  ⟨rfl, rfl⟩

/-- C3 counterexample: a 404 response whose body is valid JSON of the expected
shape is decoded successfully — the fetch does not return an error for a
non-2xx status, contradicting the claim. -/
theorem fetch_ignores_status :
    fetchAWXJobData (Except.ok ⟨404, some (Json.obj [("results", Json.arr [])])⟩)
      = Except.ok ⟨[]⟩ := rfl

/-- C3 amended: the fetch never inspects the HTTP status code — its outcome is
the same function of the body for every status code; it errors exactly on
transport failures and on bodies that do not decode. -/
theorem fetch_error_iff_body_undecodable :
    (∀ (sc sc' : Nat) (body : Option Json),
      fetchAWXJobData (Except.ok ⟨sc, body⟩) = fetchAWXJobData (Except.ok ⟨sc', body⟩))
    ∧ (∀ (sc : Nat), fetchAWXJobData (Except.ok ⟨sc, none⟩) = Except.error "invalid JSON")
    ∧ (∀ (e : String), fetchAWXJobData (Except.error e) = Except.error e) :=
  ⟨fun _ _ _ => rfl, fun _ => rfl, fun _ => rfl⟩

/-- C4: with the whitelist enabled, `isWhitelisted` accepts exactly when the
organization is an exact member of the organization whitelist and some job
label is an exact member of the label whitelist; a job with zero labels is
always rejected. -/
theorem whitelist_iff (worgs wlabels : List String) (org : String) (jobLabels : List String) :
    (isWhitelisted worgs wlabels org jobLabels = true ↔
      org ∈ worgs ∧ ∃ l ∈ jobLabels, l ∈ wlabels)
    ∧ isWhitelisted worgs wlabels org [] = false := by
  constructor
  · simp [isWhitelisted_eq, List.any_eq_true, contains_iff]
  · simp [isWhitelisted_eq]

/-- C5: with the whitelist disabled, every job passes the filter step, the
aggregate is computed over all fetched records with no job skipped, and the
result does not depend on the contents of the allow-lists. -/
theorem disabled_whitelist_allows_all (worgs wlabels worgs2 wlabels2 : List String)
    (results : List AWXJob) :
    (∀ job, jobAllowed false worgs wlabels job = true)
    ∧ aggregateJobs false worgs wlabels results
        = results.foldl (fun m job => incr m (keyOf job)) emptyAggregate
    ∧ aggregateJobs false worgs wlabels results = aggregateJobs false worgs2 wlabels2 results := by
  have hfold : ∀ (w1 w2 : List String),
      List.foldl (processJob false w1 w2) emptyAggregate results
        = results.foldl (fun m job => incr m (keyOf job)) emptyAggregate := by
    intro w1 w2
    have : processJob false w1 w2 = fun m job => incr m (keyOf job) := by
      funext m job
      exact processJob_disabled w1 w2 m job
    rw [this]
  refine ⟨fun job => by simp [jobAllowed], hfold worgs wlabels, ?_⟩
  unfold aggregateJobs
  rw [hfold worgs wlabels, hfold worgs2 wlabels2]

/-- C6: a poll cycle whose fetch errors leaves the gauge state exactly as it
was — nothing is aggregated or published. -/
theorem failed_cycle_preserves_gauges (whitelistEnabled : Bool)
    (worgs wlabels : List String) (e : String) (g : GaugeState) :
    (runCycle whitelistEnabled worgs wlabels (Except.error e) g).1 = g := rfl

/-- C8: publishing an aggregate map sets exactly the keys present in the map
(to the count, not an increment) and leaves every absent key's gauge at its
previous value — no key is removed or zeroed. -/
theorem publish_frame (m : AggregateMap) (g : GaugeState) (k : AggregateKey) :
    (m k = none → publish m g k = g k)
    ∧ (∀ c, m k = some c → publish m g k = some c) := by
  constructor
  · intro h
    simp [publish, h]
  · intro c h
    simp [publish, h]

/-- C8 witness: a concrete map containing only the key (A, ok, prod) is
published over a gauge state holding (B, failed, dev) ↦ 5; the absent key
keeps its old value and the present key is set to its count. -/
theorem publish_frame_witness :
    publish (fun k => if k = ⟨"A", "ok", "prod"⟩ then some 2 else none)
        (fun k => if k = ⟨"B", "failed", "dev"⟩ then some 5 else none)
        ⟨"B", "failed", "dev"⟩ = some 5
    ∧ publish (fun k => if k = ⟨"A", "ok", "prod"⟩ then some 2 else none)
        (fun k => if k = ⟨"B", "failed", "dev"⟩ then some 5 else none)
        ⟨"A", "ok", "prod"⟩ = some 2 := by
  constructor
  · rw [(publish_frame (fun k => if k = ⟨"A", "ok", "prod"⟩ then some 2 else none)
      (fun k => if k = ⟨"B", "failed", "dev"⟩ then some 5 else none)
      ⟨"B", "failed", "dev"⟩).1 (by decide)]
    decide
  · exact (publish_frame (fun k => if k = ⟨"A", "ok", "prod"⟩ then some 2 else none)
      (fun k => if k = ⟨"B", "failed", "dev"⟩ then some 5 else none)
      ⟨"A", "ok", "prod"⟩).2 2 (by decide)

/-- C7 counterexample: the claim quantifies over every pair of records listing
the same label names in different orders, but the comma join is not injective.
The jobs (A, ok, ["a", "a,a"]) and (A, ok, ["a,a", "a"]) list the same labels
in different orders, yet both join to "a,a,a", so aggregation produces a
single key of count 2 rather than two distinct keys of count 1. -/
theorem label_order_collision :
    aggregateJobs false [] [] [mkJob "A" "ok" ["a", "a,a"], mkJob "A" "ok" ["a,a", "a"]]
      ⟨"A", "ok", "a,a,a"⟩ = some 2 := by decide

/-- C7 amended: two records agreeing on organization and status whose label
lists produce different comma joins (as any two distinct orders of distinct
comma-free labels do) aggregate into two distinct keys, each of count 1; the
join keeps the upstream label order and is never sorted.  Orders whose joins
coincide — possible only when a label itself contains "," — collapse into one
key. -/
theorem aggregate_label_order (org status : String) (l1 l2 : List String)
    (h : String.intercalate "," l1 ≠ String.intercalate "," l2) :
    aggregateJobs false [] [] [mkJob org status l1, mkJob org status l2]
        ⟨org, status, String.intercalate "," l1⟩ = some 1
    ∧ aggregateJobs false [] [] [mkJob org status l1, mkJob org status l2]
        ⟨org, status, String.intercalate "," l2⟩ = some 1
    ∧ (⟨org, status, String.intercalate "," l1⟩ : AggregateKey)
        ≠ ⟨org, status, String.intercalate "," l2⟩ := by
  have hk : (⟨org, status, String.intercalate "," l1⟩ : AggregateKey)
      ≠ ⟨org, status, String.intercalate "," l2⟩ := by
    intro hEq
    exact h (by simpa [AggregateKey.mk.injEq] using hEq)
  have hagg : aggregateJobs false [] [] [mkJob org status l1, mkJob org status l2]
      = incr (incr emptyAggregate ⟨org, status, String.intercalate "," l1⟩)
          ⟨org, status, String.intercalate "," l2⟩ := by
    simp [aggregateJobs, List.foldl, processJob_disabled, keyOf_mkJob]
  refine ⟨?_, ?_, hk⟩
  · rw [hagg]
    simp [incr, emptyAggregate, hk]
  · rw [hagg]
    simp [incr, emptyAggregate, Ne.symm hk]

/-- C7 witness for the amended statement at the orders [x, y] and [y, x]. -/
theorem aggregate_label_order_witness :
    aggregateJobs false [] [] [mkJob "A" "ok" ["x", "y"], mkJob "A" "ok" ["y", "x"]]
        ⟨"A", "ok", String.intercalate "," ["x", "y"]⟩ = some 1
    ∧ aggregateJobs false [] [] [mkJob "A" "ok" ["x", "y"], mkJob "A" "ok" ["y", "x"]]
        ⟨"A", "ok", String.intercalate "," ["y", "x"]⟩ = some 1
    ∧ (⟨"A", "ok", String.intercalate "," ["x", "y"]⟩ : AggregateKey)
        ≠ ⟨"A", "ok", String.intercalate "," ["y", "x"]⟩ :=
  aggregate_label_order "A" "ok" ["x", "y"] ["y", "x"] (by decide)

theorem incr_getD_le (m : AggregateMap) (k k' : AggregateKey) :
    (m k').getD 0 ≤ ((incr m k) k').getD 0 := by
  unfold incr
  by_cases h : k' = k
  · subst h
    simp
  · simp [h]

theorem processJob_getD_le (we : Bool) (worgs wlabels : List String) (m : AggregateMap)
    (job : AWXJob) (k : AggregateKey) :
    (m k).getD 0 ≤ ((processJob we worgs wlabels m job) k).getD 0 := by
  rw [processJob_eq]
  by_cases h : jobAllowed we worgs wlabels job = true
  · simp only [h, if_true]
    exact incr_getD_le m (keyOf job) k
  · simp [h]

theorem foldl_agg_mem (we : Bool) (worgs wlabels : List String) (results : List AWXJob)
    (m : AggregateMap) (k : AggregateKey) :
    (results.foldl (processJob we worgs wlabels) m) k = m k
    ∨ (1 ≤ ((results.foldl (processJob we worgs wlabels) m) k).getD 0
       ∧ ∃ job, job ∈ results ∧ jobAllowed we worgs wlabels job = true ∧ keyOf job = k) := by
  induction results generalizing m with
  | nil => exact Or.inl rfl
  | cons job rest ih =>
    have hstep : List.foldl (processJob we worgs wlabels) m (job :: rest)
        = List.foldl (processJob we worgs wlabels) (processJob we worgs wlabels m job) rest := rfl
    rcases ih (processJob we worgs wlabels m job) with h | ⟨h1, j, hj, hall, hkey⟩
    · rw [hstep, h, processJob_eq]
      by_cases ha : jobAllowed we worgs wlabels job = true
      · by_cases hkk : k = keyOf job
        · right
          refine ⟨?_, job, List.mem_cons_self job rest, ha, hkk.symm⟩
          simp [ha, incr, hkk]
        · left
          simp [ha, incr, hkk]
      · left
        simp [ha]
    · right
      rw [hstep]
      exact ⟨h1, j, List.mem_cons_of_mem job hj, hall, hkey⟩

/-- C9: every key present in a cycle's aggregate map has count at least 1 and
is witnessed by a job record of that cycle's fetched results that passed the
whitelist filter; the fold starts from the empty map, so nothing carries over
from prior cycles. -/
theorem aggregate_key_has_passing_witness (we : Bool) (worgs wlabels : List String)
    (results : List AWXJob) (k : AggregateKey) (c : Nat)
    (h : aggregateJobs we worgs wlabels results k = some c) :
    1 ≤ c ∧ ∃ job, job ∈ results ∧ jobAllowed we worgs wlabels job = true ∧ keyOf job = k := by
  rcases foldl_agg_mem we worgs wlabels results emptyAggregate k with h0 | ⟨h1, hex⟩
  · unfold aggregateJobs at h
    rw [h0] at h
    simp [emptyAggregate] at h
  · unfold aggregateJobs at h
    rw [h] at h1
    exact ⟨by simpa using h1, hex⟩

/-- C9 witness: the single job (A, ok, [prod]) with the whitelist disabled
yields the key (A, ok, "prod") with count 1, witnessed by that job. -/
theorem aggregate_key_has_passing_witness_inst :
    1 ≤ 1 ∧ ∃ job, job ∈ [mkJob "A" "ok" ["prod"]]
      ∧ jobAllowed false [] [] job = true ∧ keyOf job = ⟨"A", "ok", "prod"⟩ :=
  aggregate_key_has_passing_witness false [] [] [mkJob "A" "ok" ["prod"]]
    ⟨"A", "ok", "prod"⟩ 1 (by decide)

/-- C10: a job with zero labels joins to the empty combined-label string, so a
successful cycle counts and publishes it under the key (organization, status,
""); and a job object missing its status, organization and labels fields
decodes to empty strings and an empty label list, which aggregate under those
empty-string key components. -/
theorem empty_labels_empty_fields_key (job : AWXJob) (g : GaugeState)
    (h : job.Labels = []) :
    (runCycle false [] [] (Except.ok ⟨[job]⟩) g).1
        ⟨job.Organization.Name, job.Status, ""⟩ = some 1
    ∧ decodeAWXJob (Json.obj [("id", Json.num (7 : Rat))]) =
        Except.ok { Status := "", Labels := [], Organization := ⟨""⟩, JobId := 7, Elapsed := 0 } := by
  constructor
  · have hkey : keyOf job = ⟨job.Organization.Name, job.Status, ""⟩ := by
      simp [keyOf, h]
      rfl
    have hagg : aggregateJobs false [] [] [job]
        = incr emptyAggregate ⟨job.Organization.Name, job.Status, ""⟩ := by
      simp [aggregateJobs, List.foldl, processJob_disabled, hkey]
    show publish (aggregateJobs false [] [] [job]) g ⟨job.Organization.Name, job.Status, ""⟩ = some 1
    rw [hagg]
    simp [publish, incr, emptyAggregate]
  · rfl

/-- C10 witness at the zero-label job (B, failed, []) over a fresh gauge. -/
theorem empty_labels_empty_fields_key_inst :
    (runCycle false [] [] (Except.ok ⟨[mkJob "B" "failed" []]⟩) emptyGauge).1
        ⟨(mkJob "B" "failed" []).Organization.Name, (mkJob "B" "failed" []).Status, ""⟩ = some 1
    ∧ decodeAWXJob (Json.obj [("id", Json.num (7 : Rat))]) =
        Except.ok { Status := "", Labels := [], Organization := ⟨""⟩, JobId := 7, Elapsed := 0 } :=
  empty_labels_empty_fields_key (mkJob "B" "failed" []) emptyGauge rfl

theorem decodeNamedRefList_named (names : List String) :
    decodeNamedRefList (names.map (fun n => Json.obj [("name", Json.str n)]))
      = Except.ok (names.map (fun n => ⟨n⟩)) := by
  induction names with
  | nil => rfl
  | cons a t ih =>
    simp [decodeNamedRefList, decodeNamedRef, decodeStringField, Json.getField, ih]

theorem decode_specJob (s : SpecJob) :
    decodeAWXJob s.toJson = Except.ok (specToRecord s) := by
  simp [decodeAWXJob, SpecJob.toJson, specToRecord, decodeStringField, decodeLabelsField,
    decodeOrgField, decodeIntField, decodeRatField, Json.getField,
    decodeNamedRefList_named, decodeNamedRef]

theorem decode_specDoc (jobs : List SpecJob) :
    decodeAWXResponse (specDoc jobs) = Except.ok ⟨jobs.map specToRecord⟩ := by
  have hlist : decodeAWXJobList (jobs.map SpecJob.toJson) = Except.ok (jobs.map specToRecord) := by
    induction jobs with
    | nil => rfl
    | cons a t ih => simp [decodeAWXJobList, decode_specJob, ih]
  simp [decodeAWXResponse, specDoc, Json.getField, hlist]

/-- C2: fetching any response whose body is a document of the documented shape
succeeds, and every decoded record takes its organization name from the nested
organization object's name field and its label names, in order, from the
nested label objects' name fields. -/
theorem fetch_decodes_nested_names (statusCode : Nat) (jobs : List SpecJob) :
    fetchAWXJobData (Except.ok ⟨statusCode, some (specDoc jobs)⟩)
      = Except.ok ⟨jobs.map specToRecord⟩
    ∧ (jobs.map specToRecord).map (fun r => r.Organization.Name) = jobs.map SpecJob.orgName
    ∧ (jobs.map specToRecord).map (fun r => r.Labels.map NamedRef.Name)
        = jobs.map SpecJob.labelNames := by
  refine ⟨?_, ?_, ?_⟩
  · show decodeAWXResponse (specDoc jobs) = Except.ok ⟨jobs.map specToRecord⟩
    exact decode_specDoc jobs
  · simp [specToRecord]
  · simp [specToRecord, map_mk_name_comp]

end AWX
